import Mathlib

/-!
Shallow embedding of the upipe picture-buffer API (`src/include/upipe/ubuf_pic.h`)
and proofs about its geometry normalization, resize, copy and replace routines.

The C code manipulates in/out `int` parameters; the embedding uses `Int` and
returns the final values of those parameters together with the boolean result.
C's truncated `%` and `/` on `int` are rendered as `Int.tmod` and `Int.tdiv`.
The storage manager behind `ubuf_control` is an external collaborator of this
repository (see spec sections 4.3, 6); the few manager behaviours the claims
need are modelled from the spec and marked as such.
-/

namespace Upipe

/-- One picture plane: geometry as reported by `ubuf_pic_plane_size`
(stride in octets, horizontal/vertical subsampling, macropixel byte size)
plus its byte content, line by line. -/
structure PPlane where
  stride : Nat
  hsub : Nat
  vsub : Nat
  macropixel_size : Nat
  lines : List (List Nat)
deriving DecidableEq

/-- A picture buffer: the global geometry reported by `ubuf_pic_size`
(horizontal size in pixels, vertical size in lines, macropixel) and its
chroma-keyed planes, in manager iteration order. -/
structure Pic where
  hsize : Nat
  vsize : Nat
  macropixel : Nat
  planes : List (String × PPlane)
deriving DecidableEq

/-- Chroma-keyed plane lookup, first match wins (the manager resolves a
chroma string to at most one plane). -/
def lookupPlane : List (String × PPlane) → String → Option PPlane
  | [], _ => none
  | q :: rest, c => if q.1 = c then some q.2 else lookupPlane rest c

/-- Plane lookup on a picture, modelling `ubuf_pic_plane_size` failing with
`none` exactly on an unknown chroma. -/
def Pic.findPlane (u : Pic) (c : String) : Option PPlane :=
  lookupPlane u.planes c

/-- Result of `ubuf_pic_plane_check_offset`: the C return value plus the
final values of the four in/out parameters. -/
structure CheckResult where
  ok : Bool
  hoffset : Int
  voffset : Int
  hsize : Int
  vsize : Int
deriving DecidableEq

/-- Second half of `ubuf_pic_plane_check_offset` (lines 153-161): the
macropixel alignment test on the already-resolved offsets/sizes, then the
plane lookup and the per-plane subsampling alignment tests. -/
def checkAligned (u : Pic) (chroma : String) (ho vo hs vs : Int) : CheckResult :=
  if ho.tmod (u.macropixel : Int) ≠ 0 ∨ hs.tmod (u.macropixel : Int) ≠ 0 then
    ⟨false, ho, vo, hs, vs⟩
  else
    match u.findPlane chroma with
    | none => ⟨false, ho, vo, hs, vs⟩
    | some p =>
      if ho.tmod (p.hsub : Int) ≠ 0 ∨ hs.tmod (p.hsub : Int) ≠ 0 ∨
          vo.tmod (p.vsub : Int) ≠ 0 ∨ vs.tmod (p.vsub : Int) ≠ 0 then
        ⟨false, ho, vo, hs, vs⟩
      else
        ⟨true, ho, vo, hs, vs⟩

/-- `ubuf_pic_plane_check_offset` (lines 133-162): bounds test on the raw
parameters, then resolution of negative offsets (`abs = extent + offset`)
and of `-1` sizes (`extent - abs_offset`), then the alignment tests of
`checkAligned`.  On the early-failure path the in/out parameters are
returned unchanged; afterwards the resolved values are returned whether or
not the alignment tests pass. -/
def ubuf_pic_plane_check_offset (u : Pic) (chroma : String)
    (hoffset voffset hsize vsize : Int) : CheckResult :=
  if hoffset > (u.hsize : Int) ∨ voffset > (u.vsize : Int) ∨
      hoffset + hsize > (u.hsize : Int) ∨ voffset + vsize > (u.vsize : Int) then
    ⟨false, hoffset, voffset, hsize, vsize⟩
  else
    let ho := if hoffset < 0 then hoffset + (u.hsize : Int) else hoffset
    let vo := if voffset < 0 then voffset + (u.vsize : Int) else voffset
    checkAligned u chroma ho vo
      (if hsize = -1 then (u.hsize : Int) - ho else hsize)
      (if vsize = -1 then (u.vsize : Int) - vo else vsize)

/-- Result of `ubuf_pic_check_resize`: the C return value plus the final
values of the four in/out parameters. -/
structure ResizeResult where
  ok : Bool
  hskip : Int
  vskip : Int
  new_hsize : Int
  new_vsize : Int
deriving DecidableEq

/-- `ubuf_pic_check_resize` (lines 265-294): skips bounded by the extents,
`-1` sizes resolved to `extent - skip`, the resolved size must be at least
`-skip`, and the horizontal skip magnitude and final horizontal size must be
macropixel-aligned. -/
def ubuf_pic_check_resize (u : Pic) (hskip vskip new_hsize new_vsize : Int) :
    ResizeResult :=
  if hskip > (u.hsize : Int) ∨ vskip > (u.vsize : Int) then
    ⟨false, hskip, vskip, new_hsize, new_vsize⟩
  else
    let nh := if new_hsize = -1 then (u.hsize : Int) - hskip else new_hsize
    let nv := if new_vsize = -1 then (u.vsize : Int) - vskip else new_vsize
    if nh < -hskip ∨ nv < -vskip then
      ⟨false, hskip, vskip, nh, nv⟩
    else if (hskip < 0 ∧ (-hskip).tmod (u.macropixel : Int) ≠ 0) ∨
        (hskip > 0 ∧ hskip.tmod (u.macropixel : Int) ≠ 0) ∨
        nh.tmod (u.macropixel : Int) ≠ 0 then
      ⟨false, hskip, vskip, nh, nv⟩
    else
      ⟨true, hskip, vskip, nh, nv⟩

/-- Resolution of a `-1` resize size performed by `ubuf_pic_check_resize`
(lines 277-280): `-1` keeps the far edge where it is, i.e. becomes
`extent - skip`; any other value stays. -/
def resolvedSize (extent skip sz : Int) : Int :=
  if sz = -1 then extent - skip else sz

/-- Modelled from the spec: the storage manager's `resize_in_place`
operation (spec sections 4.3 and 6), which is behind the `ubuf_control`
dispatch and not part of this repository's sources.  Per the spec, a pure
shrink (both skips non-negative and each new size at most the remaining
extent) always succeeds and only updates the visible extents; growth is
storage-policy dependent, abstracted here by the `growOk` flag. -/
def mgr_resize_picture (growOk : Bool) (u : Pic) (hskip vskip nh nv : Int) :
    Option Pic :=
  if 0 ≤ hskip ∧ 0 ≤ vskip ∧ nh ≤ (u.hsize : Int) - hskip ∧
      nv ≤ (u.vsize : Int) - vskip then
    some { u with hsize := nh.toNat, vsize := nv.toNat }
  else if growOk then
    some { u with hsize := nh.toNat, vsize := nv.toNat }
  else
    none

/-- `ubuf_pic_resize` (lines 319-329): normalize through
`ubuf_pic_check_resize`, then delegate to the manager; `none` models the C
`false` return. -/
def ubuf_pic_resize (growOk : Bool) (u : Pic) (hskip vskip nh nv : Int) :
    Option Pic :=
  let r := ubuf_pic_check_resize u hskip vskip nh nv
  if r.ok then
    mgr_resize_picture growOk u r.hskip r.vskip r.new_hsize r.new_vsize
  else
    none

/-- One plane format of a picture manager: chroma key, subsampling factors
and macropixel byte size. -/
structure PlaneFmt where
  chroma : String
  hsub : Nat
  vsub : Nat
  macropixel_size : Nat
deriving DecidableEq

/-- A picture manager: the macropixel and plane formats it allocates with
(spec section 2: format data supplied by the manager). -/
structure Mgr where
  macropixel : Nat
  fmts : List PlaneFmt
deriving DecidableEq

/-- Modelled from the spec: the manager's `allocate` operation (spec
section 6) behind `ubuf_pic_alloc` (lines 50-54), which is not part of this
repository's sources.  It produces a buffer of the requested extents with
the manager's macropixel and plane formats; each plane gets the tight
stride for its width and default (zero) content.  Negative sizes fail. -/
def ubuf_pic_alloc (mgr : Mgr) (hsize vsize : Int) : Option Pic :=
  if hsize < 0 ∨ vsize < 0 then
    none
  else
    some
      { hsize := hsize.toNat
        vsize := vsize.toNat
        macropixel := mgr.macropixel
        planes := mgr.fmts.map fun f =>
          (f.chroma,
            { stride := hsize.toNat / f.hsub / mgr.macropixel * f.macropixel_size
              hsub := f.hsub
              vsub := f.vsub
              macropixel_size := f.macropixel_size
              lines := List.replicate (vsize.toNat / f.vsub)
                (List.replicate
                  (hsize.toNat / f.hsub / mgr.macropixel * f.macropixel_size) 0) }) }

/-- `ubuf_pic_plane_write` (lines 214-225): normalize the region through
`ubuf_pic_plane_check_offset`, then map the plane.  The mapping address
resolution lives in the manager (spec sections 4.2, 6); modelled from the
spec, the returned view is the pair (first line of the region in the plane's
line array, first byte of the region within a line): the resolved offsets
divided by the plane's subsampling, the horizontal one further divided by
the macropixel and scaled by the plane's macropixel byte size. -/
def ubuf_pic_plane_write (u : Pic) (chroma : String) (ho vo hs vs : Int) :
    Option (Nat × Nat) :=
  let r := ubuf_pic_plane_check_offset u chroma ho vo hs vs
  match u.findPlane chroma with
  | none => none
  | some p =>
    if r.ok then
      some ((r.voffset.tdiv (p.vsub : Int)).toNat,
        ((r.hoffset.tdiv (p.hsub : Int)).tdiv (u.macropixel : Int) *
          (p.macropixel_size : Int)).toNat)
    else
      none

/-- `ubuf_pic_plane_read` (lines 182-193): same normalization and mapping as
`ubuf_pic_plane_write` (the exclusivity check a write additionally performs
belongs to the manager and is not modelled; no claim depends on it). -/
def ubuf_pic_plane_read (u : Pic) (chroma : String) (ho vo hs vs : Int) :
    Option (Nat × Nat) :=
  ubuf_pic_plane_write u chroma ho vo hs vs

/-- Read `n` bytes of a line starting at byte `s` (source side of the
`memcpy` at line 431). -/
def readBytes (l : List Nat) (s n : Nat) : List Nat :=
  (l.drop s).take n

/-- Overwrite the bytes of a line starting at byte `s` with `bytes`
(destination side of the `memcpy` at line 431). -/
def writeBytes (l : List Nat) (s : Nat) (bytes : List Nat) : List Nat :=
  l.take s ++ bytes ++ l.drop (s + bytes.length)

/-- The per-plane copy loop of `ubuf_pic_copy` (lines 430-434): `rows`
iterations, each copying `n` bytes from line `s0 + i` of the source plane
(starting at byte `sb`) into line `d0 + i` of the destination plane
(starting at byte `db`); advancing each mapped pointer by its own stride is
advancing to the next line of each plane. -/
def copyLines :
    List (List Nat) → List (List Nat) → Nat → Nat → Nat → Nat → Nat → Nat →
      List (List Nat)
  | dst, _, _, _, _, _, _, 0 => dst
  | dst, src, d0, s0, db, sb, n, rows + 1 =>
    copyLines
      (dst.set d0 (writeBytes (dst.getD d0 []) db (readBytes (src.getD s0 []) sb n)))
      src (d0 + 1) (s0 + 1) db sb n rows

/-- Replace the content of the plane keyed `c` (the write-mapped
destination plane of one `ubuf_pic_copy` iteration). -/
def updatePlane (ps : List (String × PPlane)) (c : String)
    (g : PPlane → PPlane) : List (String × PPlane) :=
  ps.map fun q => if q.1 = c then (q.1, g q.2) else q

/-- Overwrite a destination plane's content with the line copy loop run
against source plane `p` (destination side of one `ubuf_pic_copy`
iteration). -/
def transferLines (p : PPlane) (dl sl db sb n rows : Nat) (q : PPlane) :
    PPlane :=
  { q with lines := copyLines q.lines p.lines dl sl db sb n rows }

/-- One iteration of the plane loop of `ubuf_pic_copy` (lines 392-444):
query both planes, fail on a subsampling or macropixel-size mismatch, map
the destination for writing and the source for reading, then run the line
copy loop.  Unmapping cannot fail in this model. -/
def copyPlane (u dst : Pic) (c : String) (eho evo ehk evk ehs evs : Int) :
    Option Pic :=
  match u.findPlane c with
  | none => none
  | some p =>
    match dst.findPlane c with
    | none => none
    | some np =>
      if p.hsub ≠ np.hsub ∨ p.vsub ≠ np.vsub ∨
          p.macropixel_size ≠ np.macropixel_size then
        none
      else
        match ubuf_pic_plane_write dst c eho evo ehs evs with
        | none => none
        | some (dl, db) =>
          match ubuf_pic_plane_read u c ehk evk ehs evs with
          | none => none
          | some (sl, sb) =>
            some { dst with
                   planes :=
                     updatePlane dst.planes c
                       (transferLines p dl sl db sb
                         (((ehs.tdiv (p.hsub : Int)).tdiv
                           (u.macropixel : Int)) *
                           (p.macropixel_size : Int)).toNat
                         ((evs.tdiv (p.vsub : Int)).toNat)) }

/-- The plane loop of `ubuf_pic_copy`, iterated over the source's chroma
keys (`ubuf_pic_plane_iterate` enumerates them in manager order). -/
def copyPlanes (u : Pic) :
    List String → Pic → Int → Int → Int → Int → Int → Int → Option Pic
  | [], dst, _, _, _, _, _, _ => some dst
  | c :: cs, dst, eho, evo, ehk, evk, ehs, evs =>
    match copyPlane u dst c eho evo ehk evk ehs evs with
    | none => none
    | some dst₁ => copyPlanes u cs dst₁ eho evo ehk evk ehs evs

/-- Result of the instrumented `ubuf_pic_copy`: the returned buffer (or
`none` for the C `NULL`), whether the destination allocation succeeded,
whether `ubuf_free(new_ubuf)` was executed (the `ubuf_pic_copy_err` label,
lines 447-449), whether `ubuf_free(ubuf)` was executed on the source (no
such call exists in the routine), and the source buffer as left by the
routine. -/
structure CopyResult where
  result : Option Pic
  allocated : Bool
  dstFreed : Bool
  srcFreed : Bool
  srcAfter : Pic
deriving DecidableEq

/-- `ubuf_pic_copy` (lines 346-450), instrumented with the resource events
of `CopyResult`: normalize through `ubuf_pic_check_resize`, allocate the
destination, fail on a macropixel mismatch, compute the per-axis overlap
between source and destination, and copy every source plane.  Every failure
after allocation goes through the `ubuf_pic_copy_err` label, which frees
the destination. -/
def ubuf_pic_copy_instr (mgr : Mgr) (u : Pic) (hskip vskip nh nv : Int) :
    CopyResult :=
  let r := ubuf_pic_check_resize u hskip vskip nh nv
  if r.ok then
    match ubuf_pic_alloc mgr r.new_hsize r.new_vsize with
    | none => ⟨none, false, false, false, u⟩
    | some d0 =>
      if d0.macropixel ≠ u.macropixel then
        ⟨none, true, true, false, u⟩
      else
        let eho := if r.hskip < 0 then -r.hskip else 0
        let ehk := if r.hskip < 0 then 0 else r.hskip
        let ehs := if r.new_hsize - eho ≤ (u.hsize : Int) - ehk then
          r.new_hsize - eho else (u.hsize : Int) - ehk
        let evo := if r.vskip < 0 then -r.vskip else 0
        let evk := if r.vskip < 0 then 0 else r.vskip
        let evs := if r.new_vsize - evo ≤ (u.vsize : Int) - evk then
          r.new_vsize - evo else (u.vsize : Int) - evk
        match copyPlanes u (u.planes.map Prod.fst) d0 eho evo ehk evk ehs evs with
        | none => ⟨none, true, true, false, u⟩
        | some d => ⟨some d, true, false, false, u⟩
  else
    ⟨none, false, false, false, u⟩

/-- `ubuf_pic_copy`: the buffer it returns (`none` for `NULL`). -/
def ubuf_pic_copy (mgr : Mgr) (u : Pic) (hskip vskip nh nv : Int) : Option Pic :=
  (ubuf_pic_copy_instr mgr u hskip vskip nh nv).result

/-- Result of `ubuf_pic_replace`: the C return value, the final value of
the `*ubuf_p` handle, and whether `ubuf_free` was executed on the original
buffer. -/
structure ReplaceResult where
  ret : Bool
  handle : Pic
  oldFreed : Bool
deriving DecidableEq

/-- `ubuf_pic_replace` (lines 468-481): copy; on failure return `false`
leaving the handle and the original buffer alone; on success free the
original and overwrite the handle with the new buffer. -/
def ubuf_pic_replace (mgr : Mgr) (u : Pic) (hskip vskip nh nv : Int) :
    ReplaceResult :=
  match ubuf_pic_copy mgr u hskip vskip nh nv with
  | none => ⟨false, u, false⟩
  | some d => ⟨true, d, true⟩

/-- Well-formedness of one plane against its picture's global geometry
(spec section 3 invariants): positive subsampling factors, at least the
subsampled line count, every line as long as the stride, and a stride
covering the subsampled width in bytes. -/
def PPlane.WF (hsize vsize macropixel : Nat) (p : PPlane) : Prop :=
  0 < p.hsub ∧ 0 < p.vsub ∧
  vsize / p.vsub ≤ p.lines.length ∧
  (∀ l ∈ p.lines, l.length = p.stride) ∧
  hsize / p.hsub / macropixel * p.macropixel_size ≤ p.stride

instance (hsize vsize macropixel : Nat) (p : PPlane) :
    Decidable (PPlane.WF hsize vsize macropixel p) := by
  unfold PPlane.WF; infer_instance

/-- Well-formedness of a picture buffer: positive macropixel, distinct
chroma keys, and well-formed planes. -/
def Pic.WF (u : Pic) : Prop :=
  0 < u.macropixel ∧ (u.planes.map Prod.fst).Nodup ∧
  ∀ q ∈ u.planes, PPlane.WF u.hsize u.vsize u.macropixel q.2

instance (u : Pic) : Decidable u.WF := by
  unfold Pic.WF; infer_instance

/-- The overlap region `ubuf_pic_copy` is specified to transfer (spec
section 4.4, step 3 and 4): per axis, the destination offset is `-skip`
and the source skip `0` for a negative skip, else the destination offset
is `0` and the source skip is `skip`; the copied extent is
`min(new_extent - dest_offset, source_extent - source_skip)`.  For every
source plane, the destination holds exactly that region — divided by the
plane's subsampling, the horizontal width further divided by the macropixel
and scaled by the plane's macropixel byte size — line by line. -/
def copyTransfersOverlap (u : Pic) (hskip vskip nh nv : Int) (dst : Pic) :
    Prop :=
  let r := ubuf_pic_check_resize u hskip vskip nh nv
  let dho := if r.hskip < 0 then -r.hskip else 0
  let shk := if r.hskip < 0 then 0 else r.hskip
  let dvo := if r.vskip < 0 then -r.vskip else 0
  let svk := if r.vskip < 0 then 0 else r.vskip
  let ehs := min (r.new_hsize - dho) ((u.hsize : Int) - shk)
  let evs := min (r.new_vsize - dvo) ((u.vsize : Int) - svk)
  r.ok = true ∧
  dst.hsize = r.new_hsize.toNat ∧ dst.vsize = r.new_vsize.toNat ∧
  dst.macropixel = u.macropixel ∧
  ∀ c p, u.findPlane c = some p →
    ∃ np, dst.findPlane c = some np ∧
      np.hsub = p.hsub ∧ np.vsub = p.vsub ∧
      np.macropixel_size = p.macropixel_size ∧
      ∀ i, i < (evs.tdiv (p.vsub : Int)).toNat →
        readBytes (np.lines.getD ((dvo.tdiv (p.vsub : Int)).toNat + i) [])
          (((dho.tdiv (p.hsub : Int)).tdiv (u.macropixel : Int) *
            (p.macropixel_size : Int)).toNat)
          (((ehs.tdiv (p.hsub : Int)).tdiv (u.macropixel : Int) *
            (p.macropixel_size : Int)).toNat) =
        readBytes (p.lines.getD ((svk.tdiv (p.vsub : Int)).toNat + i) [])
          (((shk.tdiv (p.hsub : Int)).tdiv (u.macropixel : Int) *
            (p.macropixel_size : Int)).toNat)
          (((ehs.tdiv (p.hsub : Int)).tdiv (u.macropixel : Int) *
            (p.macropixel_size : Int)).toNat)

/-- Lines of constant zero bytes, for concrete buffers. -/
def zeroLines (v s : Nat) : List (List Nat) :=
  List.replicate v (List.replicate s 0)

/-- Concrete 4x4 picture, macropixel 1, one plane without subsampling. -/
def picA : Pic := ⟨4, 4, 1, [("y8", ⟨4, 1, 1, 1, zeroLines 4 4⟩)]⟩

/-- Concrete 4x4 picture, macropixel 2, one plane without subsampling. -/
def picB : Pic := ⟨4, 4, 2, [("u8", ⟨4, 1, 1, 2, zeroLines 4 4⟩)]⟩

/-- Concrete 1x1 picture with a single byte of content. -/
def picT : Pic := ⟨1, 1, 1, [("y8", ⟨1, 1, 1, 1, [[7]]⟩)]⟩

/-- Manager matching `picT`. -/
def mgrT : Mgr := ⟨1, [⟨"y8", 1, 1, 1⟩]⟩

/-- Manager with macropixel 2 (mismatching `picT`). -/
def mgrB : Mgr := ⟨2, [⟨"y8", 1, 1, 1⟩]⟩

/-- The buffer `ubuf_pic_copy mgrT picT 0 0 1 1` produces. -/
def dstT : Pic := ⟨1, 1, 1, [("y8", ⟨1, 1, 1, 1, [[7]]⟩)]⟩

/-! ## Helper lemmas -/

theorem check_offset_eq_of_fail (u : Pic) (c : String) (ho vo hs vs : Int)
    (h : ho > (u.hsize : Int) ∨ vo > (u.vsize : Int) ∨
      ho + hs > (u.hsize : Int) ∨ vo + vs > (u.vsize : Int)) :
    ubuf_pic_plane_check_offset u c ho vo hs vs = ⟨false, ho, vo, hs, vs⟩ := by
  unfold ubuf_pic_plane_check_offset
  rw [if_pos h]

theorem check_offset_eq_of_pass (u : Pic) (c : String) (ho vo hs vs : Int)
    (h : ¬(ho > (u.hsize : Int) ∨ vo > (u.vsize : Int) ∨
      ho + hs > (u.hsize : Int) ∨ vo + vs > (u.vsize : Int))) :
    ubuf_pic_plane_check_offset u c ho vo hs vs =
      checkAligned u c (if ho < 0 then ho + (u.hsize : Int) else ho)
        (if vo < 0 then vo + (u.vsize : Int) else vo)
        (if hs = -1 then
          (u.hsize : Int) - (if ho < 0 then ho + (u.hsize : Int) else ho) else hs)
        (if vs = -1 then
          (u.vsize : Int) - (if vo < 0 then vo + (u.vsize : Int) else vo) else vs) := by
  unfold ubuf_pic_plane_check_offset
  rw [if_neg h]

theorem checkAligned_fields (u : Pic) (c : String) (ho vo hs vs : Int) :
    (checkAligned u c ho vo hs vs).hoffset = ho ∧
    (checkAligned u c ho vo hs vs).voffset = vo ∧
    (checkAligned u c ho vo hs vs).hsize = hs ∧
    (checkAligned u c ho vo hs vs).vsize = vs := by
  unfold checkAligned
  split
  · exact ⟨rfl, rfl, rfl, rfl⟩
  · split
    · exact ⟨rfl, rfl, rfl, rfl⟩
    · split
      · exact ⟨rfl, rfl, rfl, rfl⟩
      · exact ⟨rfl, rfl, rfl, rfl⟩

theorem checkAligned_ok_aligned (u : Pic) (c : String) (ho vo hs vs : Int)
    (hok : (checkAligned u c ho vo hs vs).ok = true) :
    ho.tmod (u.macropixel : Int) = 0 ∧ hs.tmod (u.macropixel : Int) = 0 ∧
    ∀ p, u.findPlane c = some p →
      ho.tmod (p.hsub : Int) = 0 ∧ hs.tmod (p.hsub : Int) = 0 ∧
      vo.tmod (p.vsub : Int) = 0 ∧ vs.tmod (p.vsub : Int) = 0 := by
  unfold checkAligned at hok
  split at hok
  · exact absurd hok (by simp)
  · rename_i hmp
    push_neg at hmp
    split at hok
    · exact absurd hok (by simp)
    · rename_i p hp
      split at hok
      · exact absurd hok (by simp)
      · rename_i hsub
        push_neg at hsub
        refine ⟨hmp.1, hmp.2, ?_⟩
        intro q hq
        rw [hp] at hq
        cases hq
        exact ⟨hsub.1, hsub.2.1, hsub.2.2.1, hsub.2.2.2⟩

/-! ## Claim theorems -/

/-- C1: region normalization is claimed to succeed only when the resolved
region satisfies `abs_offset ≥ 0` and `abs_offset + abs_size ≤ extent` on
both axes.  The code checks bounds on the raw parameters before resolving
negative offsets, so it accepts regions that violate both conditions:
on a 4x4 picture with macropixel 1, `hoffset = -9` resolves to the negative
absolute offset `-5` yet the check returns `true`, and `hoffset = -2` with
`hsize = 4` resolves to `2` with `2 + 4 > 4` yet the check returns `true`. -/
theorem checkOffset_accepts_out_of_bounds :
    (ubuf_pic_plane_check_offset picA "y8" (-9) 0 2 4).ok = true ∧
    (ubuf_pic_plane_check_offset picA "y8" (-9) 0 2 4).hoffset < 0 ∧
    (ubuf_pic_plane_check_offset picA "y8" (-2) 0 4 4).ok = true ∧
    (ubuf_pic_plane_check_offset picA "y8" (-2) 0 4 4).hoffset +
      (ubuf_pic_plane_check_offset picA "y8" (-2) 0 4 4).hsize >
      (picA.hsize : Int) := by
  decide

/-- C10: a failing `ubuf_pic_plane_check_offset` can leave the caller's
in/out arguments overwritten with partially normalized values: on a 4x4
picture with macropixel 2, the call with `hoffset = -1` converts the offset
to the absolute value `3`, then fails the macropixel alignment test,
returning `false` with the argument no longer `-1`. -/
theorem checkOffset_not_atomic :
    ubuf_pic_plane_check_offset picB "u8" (-1) 0 2 4 = ⟨false, 3, 0, 2, 4⟩ ∧
    ((-1 : Int) ≠ 3) := by
  decide

/-- C3: `ubuf_pic_replace` is atomic: when the internal copy fails it
returns `false` with the handle unchanged and the original buffer not
freed; when the copy succeeds it frees the original, overwrites the handle
with the new buffer and returns `true`. -/
theorem replace_atomic (mgr : Mgr) (u : Pic) (hskip vskip nh nv : Int) :
    (ubuf_pic_copy mgr u hskip vskip nh nv = none →
      ubuf_pic_replace mgr u hskip vskip nh nv = ⟨false, u, false⟩) ∧
    (∀ d, ubuf_pic_copy mgr u hskip vskip nh nv = some d →
      ubuf_pic_replace mgr u hskip vskip nh nv = ⟨true, d, true⟩) := by
  constructor
  · intro h
    simp [ubuf_pic_replace, h]
  · intro d h
    simp [ubuf_pic_replace, h]

theorem replace_atomic_witness :
    ubuf_pic_replace mgrT picT 0 0 1 1 = ⟨true, dstT, true⟩ :=
  (replace_atomic mgrT picT 0 0 1 1).2 dstT (by decide)

/-- C4: `ubuf_pic_copy` never frees or mutates the source buffer, and
whenever it fails after the destination allocation succeeded it frees the
partially-built destination before returning `NULL`; on success the
destination is not freed. -/
theorem copy_frees_dst_on_failure (mgr : Mgr) (u : Pic)
    (hskip vskip nh nv : Int) :
    (ubuf_pic_copy_instr mgr u hskip vskip nh nv).srcFreed = false ∧
    (ubuf_pic_copy_instr mgr u hskip vskip nh nv).srcAfter = u ∧
    ((ubuf_pic_copy_instr mgr u hskip vskip nh nv).allocated = true →
      (ubuf_pic_copy_instr mgr u hskip vskip nh nv).result = none →
      (ubuf_pic_copy_instr mgr u hskip vskip nh nv).dstFreed = true) ∧
    (∀ d, (ubuf_pic_copy_instr mgr u hskip vskip nh nv).result = some d →
      (ubuf_pic_copy_instr mgr u hskip vskip nh nv).dstFreed = false) := by
  simp only [ubuf_pic_copy_instr]
  split
  · split
    · simp
    · split
      · simp
      · split
        · simp
        · simp
  · simp

theorem copy_frees_dst_on_failure_witness :
    (ubuf_pic_copy_instr mgrB picT 0 0 1 1).result = none ∧
    (ubuf_pic_copy_instr mgrB picT 0 0 1 1).dstFreed = true :=
  ⟨by decide,
    (copy_frees_dst_on_failure mgrB picT 0 0 1 1).2.2.1 (by decide) (by decide)⟩

/-- C5: for a plane of extent `E`, normalizing `(offset = -k, size = s)` and
normalizing `(offset = E - k, size = s)` produce the same outcome — same
verdict, and on success the very same resolved region — for all valid
`k, s` (a from-the-end offset `1 ≤ k ≤ E` and a size that is either open
ended or fits before the end, `0 ≤ s ≤ k`), on each axis. -/
theorem negative_offset_equiv :
    (∀ (u : Pic) (c : String) (vo vs k s : Int),
      1 ≤ k → k ≤ (u.hsize : Int) → (s = -1 ∨ (0 ≤ s ∧ s ≤ k)) →
      (ubuf_pic_plane_check_offset u c (-k) vo s vs).ok =
        (ubuf_pic_plane_check_offset u c ((u.hsize : Int) - k) vo s vs).ok ∧
      ((ubuf_pic_plane_check_offset u c (-k) vo s vs).ok = true →
        ubuf_pic_plane_check_offset u c (-k) vo s vs =
          ubuf_pic_plane_check_offset u c ((u.hsize : Int) - k) vo s vs)) ∧
    (∀ (u : Pic) (c : String) (ho hs k s : Int),
      1 ≤ k → k ≤ (u.vsize : Int) → (s = -1 ∨ (0 ≤ s ∧ s ≤ k)) →
      (ubuf_pic_plane_check_offset u c ho (-k) hs s).ok =
        (ubuf_pic_plane_check_offset u c ho ((u.vsize : Int) - k) hs s).ok ∧
      ((ubuf_pic_plane_check_offset u c ho (-k) hs s).ok = true →
        ubuf_pic_plane_check_offset u c ho (-k) hs s =
          ubuf_pic_plane_check_offset u c ho ((u.vsize : Int) - k) hs s)) := by
  constructor
  · intro u c vo vs k s hk1 hk2 hsv
    have e : (-k > (u.hsize : Int) ∨ vo > (u.vsize : Int) ∨
        -k + s > (u.hsize : Int) ∨ vo + vs > (u.vsize : Int)) ↔
        ((u.hsize : Int) - k > (u.hsize : Int) ∨ vo > (u.vsize : Int) ∨
        (u.hsize : Int) - k + s > (u.hsize : Int) ∨ vo + vs > (u.vsize : Int)) := by
      rcases hsv with rfl | ⟨hs1, hs2⟩ <;> omega
    by_cases hc : -k > (u.hsize : Int) ∨ vo > (u.vsize : Int) ∨
        -k + s > (u.hsize : Int) ∨ vo + vs > (u.vsize : Int)
    · rw [check_offset_eq_of_fail u c _ _ _ _ hc,
        check_offset_eq_of_fail u c _ _ _ _ (e.mp hc)]
      exact ⟨rfl, fun h => nomatch h⟩
    · rw [check_offset_eq_of_pass u c _ _ _ _ hc,
        check_offset_eq_of_pass u c _ _ _ _ (fun hh => hc (e.mpr hh))]
      rw [if_pos (show -k < 0 by omega),
        if_neg (show ¬((u.hsize : Int) - k < 0) by omega),
        show -k + (u.hsize : Int) = (u.hsize : Int) - k by ring]
      exact ⟨rfl, fun _ => rfl⟩
  · intro u c ho hs k s hk1 hk2 hsv
    have e : (ho > (u.hsize : Int) ∨ -k > (u.vsize : Int) ∨
        ho + hs > (u.hsize : Int) ∨ -k + s > (u.vsize : Int)) ↔
        (ho > (u.hsize : Int) ∨ (u.vsize : Int) - k > (u.vsize : Int) ∨
        ho + hs > (u.hsize : Int) ∨ (u.vsize : Int) - k + s > (u.vsize : Int)) := by
      rcases hsv with rfl | ⟨hs1, hs2⟩ <;> omega
    by_cases hc : ho > (u.hsize : Int) ∨ -k > (u.vsize : Int) ∨
        ho + hs > (u.hsize : Int) ∨ -k + s > (u.vsize : Int)
    · rw [check_offset_eq_of_fail u c _ _ _ _ hc,
        check_offset_eq_of_fail u c _ _ _ _ (e.mp hc)]
      exact ⟨rfl, fun h => nomatch h⟩
    · rw [check_offset_eq_of_pass u c _ _ _ _ hc,
        check_offset_eq_of_pass u c _ _ _ _ (fun hh => hc (e.mpr hh))]
      rw [if_pos (show -k < 0 by omega),
        if_neg (show ¬((u.vsize : Int) - k < 0) by omega),
        show -k + (u.vsize : Int) = (u.vsize : Int) - k by ring]
      exact ⟨rfl, fun _ => rfl⟩

theorem negative_offset_equiv_witness :
    ubuf_pic_plane_check_offset picA "y8" (-2) 0 2 4 =
      ubuf_pic_plane_check_offset picA "y8" ((picA.hsize : Int) - 2) 0 2 4 :=
  ((negative_offset_equiv.1 picA "y8" 0 4 2 2 (by decide) (by decide)
    (Or.inr ⟨by decide, by decide⟩)).2 (by decide))

/-- C9 counterexample: at extent 4 with offset `o = -2`, normalizing with
size `-1` yields the resolved size `2`, while normalizing with the explicit
size `E - o = 6` succeeds with resolved size `6`: the two outcomes differ,
so the open-ended size equivalence does not hold for every offset. -/
theorem open_size_equiv_cx :
    (ubuf_pic_plane_check_offset picA "y8" (-2) 0 (-1) 4).ok = true ∧
    (ubuf_pic_plane_check_offset picA "y8" (-2) 0 6 4).ok = true ∧
    (ubuf_pic_plane_check_offset picA "y8" (-2) 0 (-1) 4).hsize = 2 ∧
    (ubuf_pic_plane_check_offset picA "y8" (-2) 0 6 4).hsize = 6 ∧
    (picA.hsize : Int) - (-2) = 6 := by
  decide

/-- C9 (amended to non-negative offsets): for every offset `0 ≤ o` on an
axis of extent `E`, normalizing with size `-1` produces the same outcome —
same verdict, and on success the same resolved region — as normalizing
with the explicit size `E - o`, on each axis. -/
theorem open_size_equiv :
    (∀ (u : Pic) (c : String) (o vo vs : Int), 0 ≤ o →
      (ubuf_pic_plane_check_offset u c o vo (-1) vs).ok =
        (ubuf_pic_plane_check_offset u c o vo ((u.hsize : Int) - o) vs).ok ∧
      ((ubuf_pic_plane_check_offset u c o vo (-1) vs).ok = true →
        ubuf_pic_plane_check_offset u c o vo (-1) vs =
          ubuf_pic_plane_check_offset u c o vo ((u.hsize : Int) - o) vs)) ∧
    (∀ (u : Pic) (c : String) (o ho hs : Int), 0 ≤ o →
      (ubuf_pic_plane_check_offset u c ho o hs (-1)).ok =
        (ubuf_pic_plane_check_offset u c ho o hs ((u.vsize : Int) - o)).ok ∧
      ((ubuf_pic_plane_check_offset u c ho o hs (-1)).ok = true →
        ubuf_pic_plane_check_offset u c ho o hs (-1) =
          ubuf_pic_plane_check_offset u c ho o hs ((u.vsize : Int) - o))) := by
  constructor
  · intro u c o vo vs ho0
    have e : (o > (u.hsize : Int) ∨ vo > (u.vsize : Int) ∨
        o + -1 > (u.hsize : Int) ∨ vo + vs > (u.vsize : Int)) ↔
        (o > (u.hsize : Int) ∨ vo > (u.vsize : Int) ∨
        o + ((u.hsize : Int) - o) > (u.hsize : Int) ∨ vo + vs > (u.vsize : Int)) := by
      omega
    by_cases hc : o > (u.hsize : Int) ∨ vo > (u.vsize : Int) ∨
        o + -1 > (u.hsize : Int) ∨ vo + vs > (u.vsize : Int)
    · rw [check_offset_eq_of_fail u c _ _ _ _ hc,
        check_offset_eq_of_fail u c _ _ _ _ (e.mp hc)]
      exact ⟨rfl, fun h => nomatch h⟩
    · rw [check_offset_eq_of_pass u c _ _ _ _ hc,
        check_offset_eq_of_pass u c _ _ _ _ (fun hh => hc (e.mpr hh))]
      rw [if_neg (show ¬(o < 0) by omega), if_pos (rfl : (-1 : Int) = -1),
        if_neg (show ¬((u.hsize : Int) - o = -1) by omega)]
      exact ⟨rfl, fun _ => rfl⟩
  · intro u c o ho hs ho0
    have e : (ho > (u.hsize : Int) ∨ o > (u.vsize : Int) ∨
        ho + hs > (u.hsize : Int) ∨ o + -1 > (u.vsize : Int)) ↔
        (ho > (u.hsize : Int) ∨ o > (u.vsize : Int) ∨
        ho + hs > (u.hsize : Int) ∨ o + ((u.vsize : Int) - o) > (u.vsize : Int)) := by
      omega
    by_cases hc : ho > (u.hsize : Int) ∨ o > (u.vsize : Int) ∨
        ho + hs > (u.hsize : Int) ∨ o + -1 > (u.vsize : Int)
    · rw [check_offset_eq_of_fail u c _ _ _ _ hc,
        check_offset_eq_of_fail u c _ _ _ _ (e.mp hc)]
      exact ⟨rfl, fun h => nomatch h⟩
    · rw [check_offset_eq_of_pass u c _ _ _ _ hc,
        check_offset_eq_of_pass u c _ _ _ _ (fun hh => hc (e.mpr hh))]
      rw [if_neg (show ¬(o < 0) by omega), if_pos (rfl : (-1 : Int) = -1),
        if_neg (show ¬((u.vsize : Int) - o = -1) by omega)]
      exact ⟨rfl, fun _ => rfl⟩

theorem open_size_equiv_witness :
    ubuf_pic_plane_check_offset picA "y8" 1 0 (-1) 4 =
      ubuf_pic_plane_check_offset picA "y8" 1 0 ((picA.hsize : Int) - 1) 4 :=
  ((open_size_equiv.1 picA "y8" 1 0 4 (by decide)).2 (by decide))

/-- C6 counterexample: on a 4x4 picture with macropixel 2, the pure shrink
`hskip = 1, vskip = 0, new_hsize = 2, new_vsize = 4` satisfies every
premise of the claim (`hskip, vskip ≥ 0`, `new_hsize ≤ E_h - hskip`,
`new_vsize ≤ E_v - vskip`), yet `ubuf_pic_resize` fails because the skip is
not macropixel-aligned. -/
theorem shrink_resize_claim_cx :
    (0 : Int) ≤ 1 ∧ (0 : Int) ≤ 0 ∧ (2 : Int) ≤ (picB.hsize : Int) - 1 ∧
    (4 : Int) ≤ (picB.vsize : Int) - 0 ∧
    ubuf_pic_resize true picB 1 0 2 4 = none := by
  decide

/-- C6 (amended with the macropixel alignment `ubuf_pic_check_resize`
demands of the horizontal skip and of the final horizontal size, and with
the new sizes given explicitly, i.e. non-negative): every such pure shrink
succeeds, whatever the storage growth policy, and the resulting extents
equal `(new_hsize, new_vsize)`.  The in-place extent update itself is the
manager's, modelled from the spec by `mgr_resize_picture`. -/
theorem shrink_resize_succeeds (growOk : Bool) (u : Pic)
    (hskip vskip nh nv : Int)
    (h1 : 0 ≤ hskip) (h2 : 0 ≤ vskip) (h3 : 0 ≤ nh) (h4 : 0 ≤ nv)
    (h5 : nh ≤ (u.hsize : Int) - hskip) (h6 : nv ≤ (u.vsize : Int) - vskip)
    (h7 : hskip.tmod (u.macropixel : Int) = 0)
    (h8 : nh.tmod (u.macropixel : Int) = 0) :
    ∃ u', ubuf_pic_resize growOk u hskip vskip nh nv = some u' ∧
      (u'.hsize : Int) = nh ∧ (u'.vsize : Int) = nv := by
  refine ⟨{ u with hsize := nh.toNat, vsize := nv.toNat }, ?_, ?_, ?_⟩
  · simp only [ubuf_pic_resize, ubuf_pic_check_resize, mgr_resize_picture]
    rw [if_neg (show ¬(hskip > (u.hsize : Int) ∨ vskip > (u.vsize : Int)) by
        omega)]
    rw [if_neg (show ¬(nh = -1) by omega), if_neg (show ¬(nv = -1) by omega)]
    rw [if_neg (show ¬(nh < -hskip ∨ nv < -vskip) by omega)]
    rw [if_neg (show ¬((hskip < 0 ∧ (-hskip).tmod (u.macropixel : Int) ≠ 0) ∨
        (hskip > 0 ∧ hskip.tmod (u.macropixel : Int) ≠ 0) ∨
        nh.tmod (u.macropixel : Int) ≠ 0) by
      rintro (⟨hlt, -⟩ | ⟨-, hm⟩ | hm)
      · omega
      · exact hm h7
      · exact hm h8)]
    rw [if_pos rfl]
    rw [if_pos (show (0 : Int) ≤ hskip ∧ (0 : Int) ≤ vskip ∧
        nh ≤ (u.hsize : Int) - hskip ∧ nv ≤ (u.vsize : Int) - vskip from
      ⟨h1, h2, h5, h6⟩)]
  · simp [Int.toNat_of_nonneg h3]
  · simp [Int.toNat_of_nonneg h4]

theorem shrink_resize_succeeds_witness :
    ∃ u', ubuf_pic_resize true picA 2 0 2 4 = some u' ∧
      (u'.hsize : Int) = 2 ∧ (u'.vsize : Int) = 4 :=
  shrink_resize_succeeds true picA 2 0 2 4 (by decide) (by decide) (by decide)
    (by decide) (by decide) (by decide) (by decide) (by decide)

theorem skip_align_iff (h m : Int) :
    ¬((h < 0 ∧ (-h).tmod m ≠ 0) ∨ (h > 0 ∧ h.tmod m ≠ 0)) ↔ |h|.tmod m = 0 := by
  rcases lt_trichotomy h 0 with hlt | rfl | hgt
  · rw [abs_of_neg hlt]
    constructor
    · intro hn
      by_contra hx
      exact hn (Or.inl ⟨hlt, hx⟩)
    · rintro hz (⟨-, hx⟩ | ⟨hp, -⟩)
      · exact hx hz
      · omega
  · simp
  · rw [abs_of_pos hgt]
    constructor
    · intro hn
      by_contra hx
      exact hn (Or.inr ⟨hgt, hx⟩)
    · rintro hz (⟨hp, -⟩ | ⟨-, hx⟩)
      · omega
      · exact hx hz

/-- C7: `ubuf_pic_check_resize` resolves `new_size = -1` on an axis to
`extent - skip` (also for negative skips), and accepts exactly when, on
each axis, the skip does not exceed the extent and the resolved size is at
least `-skip`, and the (horizontal) skip magnitude and resolved final
horizontal size are macropixel-aligned. -/
theorem check_resize_spec (u : Pic) (h v nh nv : Int) :
    ((ubuf_pic_check_resize u h v nh nv).ok = true ↔
      (h ≤ (u.hsize : Int) ∧ v ≤ (u.vsize : Int) ∧
        -h ≤ resolvedSize (u.hsize : Int) h nh ∧
        -v ≤ resolvedSize (u.vsize : Int) v nv ∧
        |h|.tmod (u.macropixel : Int) = 0 ∧
        (resolvedSize (u.hsize : Int) h nh).tmod (u.macropixel : Int) = 0)) ∧
    (h ≤ (u.hsize : Int) → v ≤ (u.vsize : Int) →
      (ubuf_pic_check_resize u h v nh nv).hskip = h ∧
      (ubuf_pic_check_resize u h v nh nv).vskip = v ∧
      (ubuf_pic_check_resize u h v nh nv).new_hsize =
        resolvedSize (u.hsize : Int) h nh ∧
      (ubuf_pic_check_resize u h v nh nv).new_vsize =
        resolvedSize (u.vsize : Int) v nv) := by
  simp only [ubuf_pic_check_resize, resolvedSize]
  set rh := if nh = -1 then (u.hsize : Int) - h else nh with hrh
  set rv := if nv = -1 then (u.vsize : Int) - v else nv with hrv
  constructor
  · by_cases hA : h > (u.hsize : Int) ∨ v > (u.vsize : Int)
    · rw [if_pos hA]
      constructor
      · intro hh
        exact nomatch hh
      · rintro ⟨h1, h2, -⟩
        exact absurd hA (by omega)
    · rw [if_neg hA]
      by_cases hB : rh < -h ∨ rv < -v
      · rw [if_pos hB]
        constructor
        · intro hh
          exact nomatch hh
        · rintro ⟨-, -, h3, h4, -⟩
          exact absurd hB (by omega)
      · rw [if_neg hB]
        by_cases hC : (h < 0 ∧ (-h).tmod (u.macropixel : Int) ≠ 0) ∨
            (h > 0 ∧ h.tmod (u.macropixel : Int) ≠ 0) ∨
            rh.tmod (u.macropixel : Int) ≠ 0
        · rw [if_pos hC]
          constructor
          · intro hh
            exact nomatch hh
          · rintro ⟨-, -, -, -, h5, h6⟩
            rcases hC with hC | hC | hC
            · exact absurd (Or.inl hC) ((skip_align_iff h _).mpr h5)
            · exact absurd (Or.inr hC) ((skip_align_iff h _).mpr h5)
            · exact absurd h6 hC
        · rw [if_neg hC]
          have hAB : ¬((h < 0 ∧ (-h).tmod (u.macropixel : Int) ≠ 0) ∨
              (h > 0 ∧ h.tmod (u.macropixel : Int) ≠ 0)) := by
            rintro (hx | hx)
            · exact hC (Or.inl hx)
            · exact hC (Or.inr (Or.inl hx))
          have hnh : rh.tmod (u.macropixel : Int) = 0 := by
            by_contra hx
            exact hC (Or.inr (Or.inr hx))
          constructor
          · intro _
            exact ⟨by omega, by omega, by omega, by omega,
              (skip_align_iff h _).mp hAB, hnh⟩
          · intro _
            rfl
  · intro h1 h2
    rw [if_neg (show ¬(h > (u.hsize : Int) ∨ v > (u.vsize : Int)) by omega)]
    by_cases hB : rh < -h ∨ rv < -v
    · rw [if_pos hB]
      exact ⟨rfl, rfl, rfl, rfl⟩
    · rw [if_neg hB]
      by_cases hC : (h < 0 ∧ (-h).tmod (u.macropixel : Int) ≠ 0) ∨
          (h > 0 ∧ h.tmod (u.macropixel : Int) ≠ 0) ∨
          rh.tmod (u.macropixel : Int) ≠ 0
      · rw [if_pos hC]
        exact ⟨rfl, rfl, rfl, rfl⟩
      · rw [if_neg hC]
        exact ⟨rfl, rfl, rfl, rfl⟩

theorem check_resize_spec_witness :
    (ubuf_pic_check_resize picA 1 1 (-1) 2).ok = true :=
  (check_resize_spec picA 1 1 (-1) 2).1.mpr (by decide)

/-- C8: a region whose resolved offsets or sizes are not aligned — to the
frame's macropixel on the horizontal axis, or to the plane's subsampling
factor on the corresponding axis — is rejected by
`ubuf_pic_plane_check_offset`; the macropixel conjunct holds whatever the
plane (it is checked before the plane is even looked up). -/
theorem misaligned_region_rejected (u : Pic) (c : String)
    (ho vo hs vs : Int) :
    (((ubuf_pic_plane_check_offset u c ho vo hs vs).hoffset.tmod
        (u.macropixel : Int) ≠ 0 ∨
      (ubuf_pic_plane_check_offset u c ho vo hs vs).hsize.tmod
        (u.macropixel : Int) ≠ 0) →
      (ubuf_pic_plane_check_offset u c ho vo hs vs).ok = false) ∧
    (∀ p, u.findPlane c = some p →
      ((ubuf_pic_plane_check_offset u c ho vo hs vs).hoffset.tmod
          (p.hsub : Int) ≠ 0 ∨
        (ubuf_pic_plane_check_offset u c ho vo hs vs).hsize.tmod
          (p.hsub : Int) ≠ 0 ∨
        (ubuf_pic_plane_check_offset u c ho vo hs vs).voffset.tmod
          (p.vsub : Int) ≠ 0 ∨
        (ubuf_pic_plane_check_offset u c ho vo hs vs).vsize.tmod
          (p.vsub : Int) ≠ 0) →
      (ubuf_pic_plane_check_offset u c ho vo hs vs).ok = false) := by
  cases hok : (ubuf_pic_plane_check_offset u c ho vo hs vs).ok with
  | false => exact ⟨fun _ => rfl, fun p _ _ => rfl⟩
  | true =>
    by_cases hc : ho > (u.hsize : Int) ∨ vo > (u.vsize : Int) ∨
        ho + hs > (u.hsize : Int) ∨ vo + vs > (u.vsize : Int)
    · rw [check_offset_eq_of_fail u c ho vo hs vs hc] at hok
      exact nomatch hok
    · have heq := check_offset_eq_of_pass u c ho vo hs vs hc
      rw [heq] at hok ⊢
      obtain ⟨f1, f2, f3, f4⟩ := checkAligned_fields u c
        (if ho < 0 then ho + (u.hsize : Int) else ho)
        (if vo < 0 then vo + (u.vsize : Int) else vo)
        (if hs = -1 then
          (u.hsize : Int) - (if ho < 0 then ho + (u.hsize : Int) else ho)
          else hs)
        (if vs = -1 then
          (u.vsize : Int) - (if vo < 0 then vo + (u.vsize : Int) else vo)
          else vs)
      have al := checkAligned_ok_aligned u c _ _ _ _ hok
      rw [f1, f2, f3, f4]
      constructor
      · rintro (hx | hx)
        · exact absurd al.1 hx
        · exact absurd al.2.1 hx
      · intro p hp
        have als := al.2.2 p hp
        rintro (hx | hx | hx | hx)
        · exact absurd als.1 hx
        · exact absurd als.2.1 hx
        · exact absurd als.2.2.1 hx
        · exact absurd als.2.2.2 hx

theorem misaligned_region_rejected_witness :
    (ubuf_pic_plane_check_offset picB "u8" 1 0 2 4).ok = false :=
  (misaligned_region_rejected picB "u8" 1 0 2 4).1 (by decide)

theorem div_add_div_le (a b c : Nat) : a / c + b / c ≤ (a + b) / c := by
  rcases Nat.eq_zero_or_pos c with rfl | hc
  · simp
  · rw [Nat.le_div_iff_mul_le hc, Nat.add_mul]
    exact Nat.add_le_add (Nat.div_mul_le_self a c) (Nat.div_mul_le_self b c)

theorem tdiv_toNat (a : Int) (b : Nat) (h : 0 ≤ a) :
    (a.tdiv (b : Int)).toNat = a.toNat / b := by
  obtain ⟨n, rfl⟩ := Int.eq_ofNat_of_zero_le h
  rfl

theorem scale_toNat (a : Int) (b m s : Nat) (h : 0 ≤ a) :
    ((a.tdiv (b : Int)).tdiv (m : Int) * (s : Int)).toNat =
      a.toNat / b / m * s := by
  obtain ⟨n, rfl⟩ := Int.eq_ofNat_of_zero_le h
  rfl

theorem readBytes_length (l : List Nat) (s n : Nat) (h : s + n ≤ l.length) :
    (readBytes l s n).length = n := by
  simp only [readBytes, List.length_take, List.length_drop]
  omega

theorem readBytes_writeBytes (L B : List Nat) (db n : Nat)
    (hdb : db + n ≤ L.length) (hB : B.length = n) :
    readBytes (writeBytes L db B) db n = B := by
  have h1 : (L.take db).length = db := by
    simp only [List.length_take]
    omega
  unfold readBytes writeBytes
  calc ((L.take db ++ B ++ L.drop (db + B.length)).drop db).take n
      = ((L.take db ++ (B ++ L.drop (db + B.length))).drop db).take n := by
        rw [List.append_assoc]
    _ = (B ++ L.drop (db + B.length)).take n := by
        rw [List.drop_left' h1]
    _ = B := by
        rw [List.take_left' hB]

theorem copyLines_get?_lt (src : List (List Nat)) (db sb n : Nat) :
    ∀ (rows : Nat) (dst : List (List Nat)) (d0 s0 k : Nat), k < d0 →
      (copyLines dst src d0 s0 db sb n rows)[k]? = dst[k]? := by
  intro rows
  induction rows with
  | zero =>
    intro dst d0 s0 k hk
    rfl
  | succ r ih =>
    intro dst d0 s0 k hk
    simp only [copyLines]
    rw [ih _ (d0 + 1) (s0 + 1) k (by omega)]
    exact List.getElem?_set_ne (by omega)

theorem copyLines_get?_eq (src : List (List Nat)) (db sb n : Nat) :
    ∀ (rows : Nat) (dst : List (List Nat)) (d0 s0 i : Nat), i < rows →
      d0 + rows ≤ dst.length →
      (copyLines dst src d0 s0 db sb n rows)[d0 + i]? =
        some (writeBytes (dst.getD (d0 + i) []) db
          (readBytes (src.getD (s0 + i) []) sb n)) := by
  intro rows
  induction rows with
  | zero =>
    intro dst d0 s0 i hi hlen
    exact absurd hi (Nat.not_lt_zero i)
  | succ r ih =>
    intro dst d0 s0 i hi hlen
    simp only [copyLines]
    cases i with
    | zero =>
      simp only [Nat.add_zero]
      rw [copyLines_get?_lt src db sb n r _ (d0 + 1) (s0 + 1) d0 (by omega)]
      exact List.getElem?_set_self (by omega)
    | succ j =>
      have e1 : d0 + (j + 1) = d0 + 1 + j := by omega
      have e3 : s0 + (j + 1) = s0 + 1 + j := by omega
      rw [e1, e3]
      rw [ih _ (d0 + 1) (s0 + 1) j (by omega) (by rw [List.length_set]; omega)]
      have e2 : ∀ X, (dst.set d0 X).getD (d0 + 1 + j) [] =
          dst.getD (d0 + 1 + j) [] := by
        intro X
        rw [List.getD_eq_getElem?_getD, List.getD_eq_getElem?_getD,
          List.getElem?_set_ne (by omega)]
      rw [e2]

theorem updatePlane_cons (q : String × PPlane) (rest : List (String × PPlane))
    (c : String) (g : PPlane → PPlane) :
    updatePlane (q :: rest) c g =
      (if q.1 = c then (q.1, g q.2) else q) :: updatePlane rest c g := rfl

theorem lookup_update_self (ps : List (String × PPlane)) (c : String)
    (g : PPlane → PPlane) :
    lookupPlane (updatePlane ps c g) c = (lookupPlane ps c).map g := by
  induction ps with
  | nil => rfl
  | cons q rest ih =>
    rw [updatePlane_cons]
    by_cases hq : q.1 = c
    · simp [lookupPlane, hq]
    · simp [lookupPlane, hq, ih]

theorem lookup_update_ne (ps : List (String × PPlane)) (c c' : String)
    (g : PPlane → PPlane) (hne : c' ≠ c) :
    lookupPlane (updatePlane ps c g) c' = lookupPlane ps c' := by
  induction ps with
  | nil => rfl
  | cons q rest ih =>
    rw [updatePlane_cons]
    by_cases hq : q.1 = c
    · have hq' : ¬(q.1 = c') := by
        rw [hq]
        exact fun hx => hne hx.symm
      simp [lookupPlane, hq, hq', Ne.symm hne, ih]
    · by_cases hq' : q.1 = c'
      · simp [lookupPlane, hq, hq', hne]
      · simp [lookupPlane, hq, hq', hne, ih]

theorem lookup_mem (ps : List (String × PPlane)) (c : String) (p : PPlane)
    (h : lookupPlane ps c = some p) : (c, p) ∈ ps := by
  induction ps with
  | nil => exact nomatch h
  | cons q rest ih =>
    simp only [lookupPlane] at h
    by_cases hq : q.1 = c
    · rw [if_pos hq] at h
      injection h with h
      obtain ⟨a, b⟩ := q
      simp only at hq h
      rw [← hq, ← h]
      exact List.mem_cons_self _ _
    · rw [if_neg hq] at h
      exact List.mem_cons_of_mem _ (ih h)

theorem nodup_mem_lookup (ps : List (String × PPlane)) (c : String)
    (p : PPlane) (hnd : (ps.map Prod.fst).Nodup) (h : (c, p) ∈ ps) :
    lookupPlane ps c = some p := by
  induction ps with
  | nil => exact nomatch h
  | cons q rest ih =>
    rw [List.map_cons, List.nodup_cons] at hnd
    rcases List.mem_cons.mp h with rfl | hmem
    · simp [lookupPlane]
    · have hq : ¬(q.1 = c) := by
        intro he
        exact hnd.1 (he ▸ List.mem_map_of_mem Prod.fst hmem)
      simp only [lookupPlane, if_neg hq]
      exact ih hnd.2 hmem

theorem check_offset_congr (d₁ d₂ : Pic) (c : String) (a b e f : Int)
    (h1 : d₁.hsize = d₂.hsize) (h2 : d₁.vsize = d₂.vsize)
    (h3 : d₁.macropixel = d₂.macropixel)
    (h4 : d₁.findPlane c = d₂.findPlane c) :
    ubuf_pic_plane_check_offset d₁ c a b e f =
      ubuf_pic_plane_check_offset d₂ c a b e f := by
  unfold ubuf_pic_plane_check_offset checkAligned
  rw [h1, h2, h3, h4]

theorem plane_write_congr (d₁ d₂ : Pic) (c : String) (a b e f : Int)
    (h1 : d₁.hsize = d₂.hsize) (h2 : d₁.vsize = d₂.vsize)
    (h3 : d₁.macropixel = d₂.macropixel)
    (h4 : d₁.findPlane c = d₂.findPlane c) :
    ubuf_pic_plane_write d₁ c a b e f = ubuf_pic_plane_write d₂ c a b e f := by
  unfold ubuf_pic_plane_write
  rw [check_offset_congr d₁ d₂ c a b e f h1 h2 h3 h4, h4, h3]

theorem copyPlane_some (u dst dst₁ : Pic) (c : String)
    (eho evo ehk evk ehs evs : Int)
    (h : copyPlane u dst c eho evo ehk evk ehs evs = some dst₁) :
    ∃ p np dl db sl sb,
      u.findPlane c = some p ∧ dst.findPlane c = some np ∧
      np.hsub = p.hsub ∧ np.vsub = p.vsub ∧
      np.macropixel_size = p.macropixel_size ∧
      ubuf_pic_plane_write dst c eho evo ehs evs = some (dl, db) ∧
      ubuf_pic_plane_read u c ehk evk ehs evs = some (sl, sb) ∧
      dst₁ = { dst with
               planes :=
                 updatePlane dst.planes c
                   (transferLines p dl sl db sb
                     ((ehs.tdiv (p.hsub : Int)).tdiv (u.macropixel : Int) *
                       (p.macropixel_size : Int)).toNat
                     (evs.tdiv (p.vsub : Int)).toNat) } := by
  unfold copyPlane at h
  split at h
  · exact nomatch h
  · rename_i p hp
    split at h
    · exact nomatch h
    · rename_i np hnp
      split at h
      · exact nomatch h
      · rename_i hsubs
        push_neg at hsubs
        split at h
        · exact nomatch h
        · rename_i pr dl db hw
          split at h
          · exact nomatch h
          · rename_i pr' sl sb hr
            injection h with h
            exact ⟨p, np, dl, db, sl, sb, hp, hnp, hsubs.1.symm,
              hsubs.2.1.symm, hsubs.2.2.symm, hw, hr, h.symm⟩

theorem lookup_alloc_planes (M H V : Nat) :
    ∀ (fmts : List PlaneFmt) (c : String) (np : PPlane),
      lookupPlane (fmts.map fun f =>
        (f.chroma,
          ⟨H / f.hsub / M * f.macropixel_size, f.hsub, f.vsub,
            f.macropixel_size,
            List.replicate (V / f.vsub)
              (List.replicate (H / f.hsub / M * f.macropixel_size) 0)⟩)) c =
        some np →
      np.stride = H / np.hsub / M * np.macropixel_size ∧
      np.lines = List.replicate (V / np.vsub) (List.replicate np.stride 0) := by
  intro fmts
  induction fmts with
  | nil =>
    intro c np h
    exact nomatch h
  | cons f rest ih =>
    intro c np h
    rw [List.map_cons] at h
    simp only [lookupPlane] at h
    by_cases hc : f.chroma = c
    · rw [if_pos (by simpa using hc)] at h
      injection h with h
      subst h
      exact ⟨rfl, rfl⟩
    · rw [if_neg (by simpa using hc)] at h
      exact ih c np h

theorem alloc_some (mgr : Mgr) (nh nv : Int) (d : Pic)
    (h : ubuf_pic_alloc mgr nh nv = some d) :
    0 ≤ nh ∧ 0 ≤ nv ∧ d.hsize = nh.toNat ∧ d.vsize = nv.toNat ∧
    d.macropixel = mgr.macropixel ∧
    ∀ c np, d.findPlane c = some np →
      np.stride = nh.toNat / np.hsub / mgr.macropixel * np.macropixel_size ∧
      np.lines = List.replicate (nv.toNat / np.vsub)
        (List.replicate np.stride 0) := by
  unfold ubuf_pic_alloc at h
  split at h
  · exact nomatch h
  · rename_i hneg
    push_neg at hneg
    injection h with h
    subst h
    refine ⟨hneg.1, hneg.2, rfl, rfl, rfl, ?_⟩
    intro c np hnp
    exact lookup_alloc_planes mgr.macropixel nh.toNat nv.toNat mgr.fmts c np hnp

theorem plane_write_nonneg (u : Pic) (c : String) (ho vo hs vs : Int)
    (h1 : 0 ≤ ho) (h2 : 0 ≤ vo) (h3 : 0 ≤ hs) (h4 : 0 ≤ vs)
    (p : PPlane) (hp : u.findPlane c = some p) (dl db : Nat)
    (hw : ubuf_pic_plane_write u c ho vo hs vs = some (dl, db)) :
    ho + hs ≤ (u.hsize : Int) ∧ vo + vs ≤ (u.vsize : Int) ∧
    dl = (vo.tdiv (p.vsub : Int)).toNat ∧
    db = ((ho.tdiv (p.hsub : Int)).tdiv (u.macropixel : Int) *
      (p.macropixel_size : Int)).toNat := by
  simp only [ubuf_pic_plane_write] at hw
  split at hw
  · exact nomatch hw
  · rename_i p' hp'
    rw [hp] at hp'
    injection hp' with hp'
    subst hp'
    split at hw
    · rename_i hok
      by_cases hc : ho > (u.hsize : Int) ∨ vo > (u.vsize : Int) ∨
          ho + hs > (u.hsize : Int) ∨ vo + vs > (u.vsize : Int)
      · rw [check_offset_eq_of_fail u c ho vo hs vs hc] at hok
        exact nomatch hok
      · have heq := check_offset_eq_of_pass u c ho vo hs vs hc
        rw [if_neg (show ¬(ho < 0) by omega), if_neg (show ¬(vo < 0) by omega),
          if_neg (show ¬(hs = -1) by omega), if_neg (show ¬(vs = -1) by omega)]
          at heq
        rw [heq] at hw
        obtain ⟨f1, f2, f3, f4⟩ := checkAligned_fields u c ho vo hs vs
        rw [f1, f2] at hw
        injection hw with hw
        injection hw with hwa hwb
        exact ⟨by omega, by omega, hwa.symm, hwb.symm⟩
    · exact nomatch hw

theorem check_resize_ok_facts (u : Pic) (h v nh nv : Int)
    (hok : (ubuf_pic_check_resize u h v nh nv).ok = true) :
    (ubuf_pic_check_resize u h v nh nv).hskip = h ∧
    (ubuf_pic_check_resize u h v nh nv).vskip = v ∧
    h ≤ (u.hsize : Int) ∧ v ≤ (u.vsize : Int) ∧
    -h ≤ (ubuf_pic_check_resize u h v nh nv).new_hsize ∧
    -v ≤ (ubuf_pic_check_resize u h v nh nv).new_vsize := by
  simp only [ubuf_pic_check_resize] at hok ⊢
  set rh := if nh = -1 then (u.hsize : Int) - h else nh with hrh
  set rv := if nv = -1 then (u.vsize : Int) - v else nv with hrv
  by_cases hA : h > (u.hsize : Int) ∨ v > (u.vsize : Int)
  · rw [if_pos hA] at hok
    exact nomatch hok
  · rw [if_neg hA] at hok ⊢
    by_cases hB : rh < -h ∨ rv < -v
    · rw [if_pos hB] at hok
      exact nomatch hok
    · rw [if_neg hB] at hok ⊢
      by_cases hC : (h < 0 ∧ (-h).tmod (u.macropixel : Int) ≠ 0) ∨
          (h > 0 ∧ h.tmod (u.macropixel : Int) ≠ 0) ∨
          rh.tmod (u.macropixel : Int) ≠ 0
      · rw [if_pos hC] at hok
        exact nomatch hok
      · rw [if_neg hC]
        refine ⟨rfl, rfl, by omega, by omega, ?_, ?_⟩
        · show -h ≤ rh
          omega
        · show -v ≤ rv
          omega

theorem copyPlanes_sound (u : Pic) (eho evo ehk evk ehs evs : Int) :
    ∀ (keys : List String) (dst dst' : Pic),
      keys.Nodup →
      copyPlanes u keys dst eho evo ehk evk ehs evs = some dst' →
      (dst'.hsize = dst.hsize ∧ dst'.vsize = dst.vsize ∧
        dst'.macropixel = dst.macropixel) ∧
      (∀ c', c' ∉ keys → dst'.findPlane c' = dst.findPlane c') ∧
      (∀ c ∈ keys, ∃ p np dl db sl sb,
        u.findPlane c = some p ∧ dst.findPlane c = some np ∧
        np.hsub = p.hsub ∧ np.vsub = p.vsub ∧
        np.macropixel_size = p.macropixel_size ∧
        ubuf_pic_plane_write dst c eho evo ehs evs = some (dl, db) ∧
        ubuf_pic_plane_read u c ehk evk ehs evs = some (sl, sb) ∧
        dst'.findPlane c = some (transferLines p dl sl db sb
          ((ehs.tdiv (p.hsub : Int)).tdiv (u.macropixel : Int) *
            (p.macropixel_size : Int)).toNat
          (evs.tdiv (p.vsub : Int)).toNat np)) := by
  intro keys
  induction keys with
  | nil =>
    intro dst dst' hnd h
    simp only [copyPlanes] at h
    injection h with h
    subst h
    exact ⟨⟨rfl, rfl, rfl⟩, fun c' _ => rfl,
      fun c hc => absurd hc (List.not_mem_nil c)⟩
  | cons c0 cs ih =>
    intro dst dst' hnd h
    simp only [copyPlanes] at h
    split at h
    · exact nomatch h
    · rename_i dst₁ h1
      obtain ⟨hc0notin, hcsnd⟩ := List.nodup_cons.mp hnd
      obtain ⟨p, np, dl, db, sl, sb, hp, hnp, hh, hv, hm, hw, hr, hdst1⟩ :=
        copyPlane_some u dst dst₁ c0 eho evo ehk evk ehs evs h1
      obtain ⟨⟨g1, g2, g3⟩, huntouched, hdone⟩ := ih dst₁ dst' hcsnd h
      have e1 : dst₁.hsize = dst.hsize := by rw [hdst1]
      have e2 : dst₁.vsize = dst.vsize := by rw [hdst1]
      have e3 : dst₁.macropixel = dst.macropixel := by rw [hdst1]
      have e4 : ∀ c', c' ≠ c0 → dst₁.findPlane c' = dst.findPlane c' := by
        intro c' hne
        rw [hdst1]
        show lookupPlane (updatePlane dst.planes c0 _) c' = _
        exact lookup_update_ne dst.planes c0 c' _ hne
      have e5 : dst₁.findPlane c0 = some (transferLines p dl sl db sb
          ((ehs.tdiv (p.hsub : Int)).tdiv (u.macropixel : Int) *
            (p.macropixel_size : Int)).toNat
          (evs.tdiv (p.vsub : Int)).toNat np) := by
        rw [hdst1]
        show lookupPlane (updatePlane dst.planes c0 _) c0 = _
        rw [lookup_update_self]
        rw [show lookupPlane dst.planes c0 = some np from hnp]
        rfl
      refine ⟨⟨by rw [g1, e1], by rw [g2, e2], by rw [g3, e3]⟩, ?_, ?_⟩
      · intro c' hc'
        have hni : c' ∉ cs := fun hx => hc' (List.mem_cons_of_mem _ hx)
        have hne : c' ≠ c0 := fun hx => hc' (hx ▸ List.mem_cons_self _ _)
        rw [huntouched c' hni, e4 c' hne]
      · intro c hc
        rcases List.mem_cons.mp hc with rfl | hmem
        · refine ⟨p, np, dl, db, sl, sb, hp, hnp, hh, hv, hm, hw, hr, ?_⟩
          rw [huntouched c hc0notin]
          exact e5
        · obtain ⟨p', np', dl', db', sl', sb', hp', hnp', hh', hv', hm', hw',
            hr', hfin⟩ := hdone c hmem
          have hne : c ≠ c0 := fun hx => hc0notin (hx ▸ hmem)
          have hfp : dst₁.findPlane c = dst.findPlane c := e4 c hne
          refine ⟨p', np', dl', db', sl', sb', hp', ?_, hh', hv', hm', ?_,
            hr', hfin⟩
          · rw [← hfp]
            exact hnp'
          · rw [← plane_write_congr dst₁ dst c eho evo ehs evs e1 e2 e3 hfp]
            exact hw'

theorem scale_add_le (e x H h m s : Nat) (hle : e + x ≤ H) :
    e / h / m * s + x / h / m * s ≤ H / h / m * s := by
  rw [Nat.div_div_eq_div_mul, Nat.div_div_eq_div_mul, Nat.div_div_eq_div_mul,
    ← Nat.add_mul]
  exact Nat.mul_le_mul_right s
    (le_trans (div_add_div_le e x (h * m)) (Nat.div_le_div_right hle))

theorem getD_replicate (n i : Nat) (a : List Nat) (h : i < n) :
    (List.replicate n a).getD i [] = a := by
  rw [List.getD_eq_getElem?_getD, List.getElem?_replicate, if_pos h]
  rfl

theorem getD_mem_of_lt (l : List (List Nat)) (i : Nat) (h : i < l.length) :
    l.getD i [] ∈ l := by
  rw [List.getD_eq_getElem?_getD, List.getElem?_eq_getElem h]
  exact List.getElem_mem h

/-- C2: whenever `ubuf_pic_copy` succeeds, the destination has the resolved
target extents and, for every source plane, holds exactly the per-axis
overlap region the spec describes — destination offset `-skip` / source
skip `0` for a negative skip and `0` / `skip` otherwise, extent
`min(new_extent - dest_offset, source_extent - source_skip)`, divided by
the plane's subsampling and scaled by its macropixel byte size — copied
line by line from the source (each side addressed through its own line
array, i.e. its own stride). -/
theorem copy_transfers_overlap (mgr : Mgr) (u : Pic)
    (hskip vskip nh nv : Int) (dst : Pic) (hwf : u.WF)
    (hc : ubuf_pic_copy mgr u hskip vskip nh nv = some dst) :
    copyTransfersOverlap u hskip vskip nh nv dst := by
  simp only [ubuf_pic_copy, ubuf_pic_copy_instr] at hc
  split at hc
  case isFalse => simp at hc
  case isTrue hok =>
  split at hc
  case h_1 => simp at hc
  case h_2 d0 heq_alloc =>
  split at hc
  case isTrue => simp at hc
  case isFalse hmp =>
  split at hc
  case h_1 => simp at hc
  case h_2 d hcp =>
  have hd : d = dst := by simpa using hc
  subst hd
  have hmpe : d0.macropixel = u.macropixel := not_ne_iff.mp hmp
  obtain ⟨rf1, rf2, rf3, rf4, rf5, rf6⟩ :=
    check_resize_ok_facts u hskip vskip nh nv hok
  obtain ⟨ha1, ha2, ha3, ha4, ha5, hallocp⟩ :=
    alloc_some mgr _ _ d0 heq_alloc
  simp only [copyTransfersOverlap]
  set r := ubuf_pic_check_resize u hskip vskip nh nv with hrdef
  set EHO := if r.hskip < 0 then -r.hskip else (0 : Int) with hEHO
  set EHK := if r.hskip < 0 then (0 : Int) else r.hskip with hEHK
  set EVO := if r.vskip < 0 then -r.vskip else (0 : Int) with hEVO
  set EVK := if r.vskip < 0 then (0 : Int) else r.vskip with hEVK
  set EHS := if r.new_hsize - EHO ≤ (u.hsize : Int) - EHK then
    r.new_hsize - EHO else (u.hsize : Int) - EHK with hEHS
  set EVS := if r.new_vsize - EVO ≤ (u.vsize : Int) - EVK then
    r.new_vsize - EVO else (u.vsize : Int) - EVK with hEVS
  have hminH : min (r.new_hsize - EHO) ((u.hsize : Int) - EHK) = EHS := by
    rw [min_def]
  have hminV : min (r.new_vsize - EVO) ((u.vsize : Int) - EVK) = EVS := by
    rw [min_def]
  rw [hminH, hminV]
  have hEHO0 : 0 ≤ EHO := by rw [hEHO]; split <;> omega
  have hEVO0 : 0 ≤ EVO := by rw [hEVO]; split <;> omega
  have hEHK0 : 0 ≤ EHK := by rw [hEHK]; split <;> omega
  have hEVK0 : 0 ≤ EVK := by rw [hEVK]; split <;> omega
  have hEHKle : EHK ≤ (u.hsize : Int) := by rw [hEHK]; split <;> omega
  have hEVKle : EVK ≤ (u.vsize : Int) := by rw [hEVK]; split <;> omega
  have hEHOle : EHO ≤ r.new_hsize := by rw [hEHO]; split <;> omega
  have hEVOle : EVO ≤ r.new_vsize := by rw [hEVO]; split <;> omega
  have hEHS0 : 0 ≤ EHS := by rw [hEHS]; split <;> omega
  have hEVS0 : 0 ≤ EVS := by rw [hEVS]; split <;> omega
  obtain ⟨⟨s1, s2, s3⟩, -, sdone⟩ :=
    copyPlanes_sound u EHO EVO EHK EVK EHS EVS (u.planes.map Prod.fst) d0 d
      hwf.2.1 hcp
  refine ⟨hok, ?_, ?_, ?_, ?_⟩
  · rw [s1, ha3]
  · rw [s2, ha4]
  · rw [s3, hmpe]
  · intro c p hp
    have hmemp : (c, p) ∈ u.planes := lookup_mem u.planes c p hp
    have hckey : c ∈ u.planes.map Prod.fst :=
      List.mem_map_of_mem Prod.fst hmemp
    obtain ⟨p', np, dl, db, sl, sb, hp', hnp, hh, hv, hm, hw, hr, hfin⟩ :=
      sdone c hckey
    have hpp : p = p' := by
      have hx := hp.symm.trans hp'
      injection hx
    subst hpp
    obtain ⟨whs, wvs, wlen, wline, wstr⟩ := hwf.2.2 (c, p) hmemp
    obtain ⟨hwb1, hwb2, hdl, hdb⟩ :=
      plane_write_nonneg d0 c EHO EVO EHS EVS hEHO0 hEVO0 hEHS0 hEVS0 np hnp
        dl db hw
    obtain ⟨hrb1, hrb2, hsl, hsb⟩ :=
      plane_write_nonneg u c EHK EVK EHS EVS hEHK0 hEVK0 hEHS0 hEVS0 p hp
        sl sb hr
    obtain ⟨hstride, hlines⟩ := hallocp c np hnp
    rw [hv] at hdl
    rw [hh, hm, hmpe] at hdb
    subst hdl
    subst hdb
    subst hsl
    subst hsb
    rw [hv] at hlines
    have hMU : mgr.macropixel = u.macropixel := ha5.symm.trans hmpe
    rw [hh, hm, hMU] at hstride
    refine ⟨_, hfin, by simp [transferLines, hh], by simp [transferLines, hv],
      by simp [transferLines, hm], ?_⟩
    intro i hi
    simp only [transferLines]
    have hDL := tdiv_toNat EVO p.vsub hEVO0
    have hROWS := tdiv_toNat EVS p.vsub hEVS0
    have hSL := tdiv_toNat EVK p.vsub hEVK0
    have hDB := scale_toNat EHO p.hsub u.macropixel p.macropixel_size hEHO0
    have hN := scale_toNat EHS p.hsub u.macropixel p.macropixel_size hEHS0
    have hSB := scale_toNat EHK p.hsub u.macropixel p.macropixel_size hEHK0
    rw [hROWS] at hi
    rw [hDL, hROWS, hSL, hDB, hN, hSB]
    have hsum_d : EVO.toNat + EVS.toNat ≤ r.new_vsize.toNat := by omega
    have hsum_s : EVK.toNat + EVS.toNat ≤ u.vsize := by omega
    have hlen1 : EVO.toNat / p.vsub + EVS.toNat / p.vsub ≤
        r.new_vsize.toNat / p.vsub :=
      le_trans (div_add_div_le _ _ _) (Nat.div_le_div_right hsum_d)
    have hlenNP : np.lines.length = r.new_vsize.toNat / p.vsub := by
      rw [hlines, List.length_replicate]
    have hkey := copyLines_get?_eq p.lines
      (EHO.toNat / p.hsub / u.macropixel * p.macropixel_size)
      (EHK.toNat / p.hsub / u.macropixel * p.macropixel_size)
      (EHS.toNat / p.hsub / u.macropixel * p.macropixel_size)
      (EVS.toNat / p.vsub) np.lines
      (EVO.toNat / p.vsub) (EVK.toNat / p.vsub) i hi
      (by rw [hlenNP]; exact hlen1)
    rw [List.getD_eq_getElem?_getD, hkey, Option.getD_some]
    have hidx : EVO.toNat / p.vsub + i < r.new_vsize.toNat / p.vsub :=
      lt_of_lt_of_le (Nat.add_lt_add_left hi _) hlen1
    have hline_eq : np.lines.getD (EVO.toNat / p.vsub + i) [] =
        List.replicate np.stride 0 := by
      rw [hlines]
      exact getD_replicate _ _ _ hidx
    rw [hline_eq]
    have hsl_lt : EVK.toNat / p.vsub + i < p.lines.length :=
      lt_of_lt_of_le (Nat.add_lt_add_left hi _)
        (le_trans (le_trans (div_add_div_le _ _ _)
          (Nat.div_le_div_right hsum_s)) wlen)
    have hsrclen : (p.lines.getD (EVK.toNat / p.vsub + i) []).length =
        p.stride :=
      wline _ (getD_mem_of_lt _ _ hsl_lt)
    have hsum_dh : EHO.toNat + EHS.toNat ≤ r.new_hsize.toNat := by omega
    have hsum_sh : EHK.toNat + EHS.toNat ≤ u.hsize := by omega
    have hdbn : EHO.toNat / p.hsub / u.macropixel * p.macropixel_size +
        EHS.toNat / p.hsub / u.macropixel * p.macropixel_size ≤ np.stride := by
      rw [hstride]
      exact scale_add_le _ _ _ _ _ _ hsum_dh
    have hsbn : EHK.toNat / p.hsub / u.macropixel * p.macropixel_size +
        EHS.toNat / p.hsub / u.macropixel * p.macropixel_size ≤ p.stride :=
      le_trans (scale_add_le _ _ _ _ _ _ hsum_sh) wstr
    exact readBytes_writeBytes _ _ _ _
      (by rw [List.length_replicate]; exact hdbn)
      (readBytes_length _ _ _ (by rw [hsrclen]; exact hsbn))

theorem copy_transfers_overlap_witness :
    copyTransfersOverlap picT 0 0 1 1 dstT :=
  copy_transfers_overlap mgrT picT 0 0 1 1 dstT (by decide) (by decide)

end Upipe
